import Mathlib

/-!
Verification of the tonefield backend (src/backend/main.py).

The repository is a single FastAPI endpoint `GET /api/field` whose handler
`get_field(tension, frequency)` builds a 50x50 grid with
`np.linspace(-1, 1, 50)` on each axis, computes
`Z = (1.0 - tension*0.9) * cos(frequency * sqrt(X^2 + Y^2) * pi)`
with `X, Y = np.meshgrid(x, y)` (so `X[i][j] = x[j]`, `Y[i][j] = y[i]`),
and returns `Z.flatten().tolist()` (row-major) together with the grid size
and the echoed parameters.

The embedding below idealises IEEE-754 double arithmetic as real arithmetic:
every numeric value of the program is modelled as a real number, and the
numpy array pipeline is modelled elementwise.  `linspaceElt n k` is element
`k` of `np.linspace (-1) 1 n`; `rval`, `amplitude` and `zval` are the
per-cell values of `R`, `amplitude` and `Z`; `get_field` assembles the JSON
response, with `Z.flatten().tolist()` modelled as a row-major `List.flatMap`
over the row index `i` (the `y` axis, outermost in numpy row-major order).
-/

namespace ToneField

/-- Grid configuration `size = 50` (src/backend/main.py, line 30). -/
def size : Nat := 50

/-- Element `k` of `np.linspace (-1) 1 n` (lines 31 and 32): numpy linspace with
endpoint uses step `(stop - start)/(n-1)`, so `x[k] = y[k] = -1 + 2*k/(n-1)`. -/
noncomputable def linspaceElt (n k : Nat) : ℝ :=
  -1 + 2 * (k : ℝ) / ((n : ℝ) - 1)

/-- `R[i][j]` of line 36: `np.sqrt(X**2 + Y**2)` where `X, Y = np.meshgrid(x, y)`
(line 33), so `X[i][j] = x[j]` and `Y[i][j] = y[i]`. -/
noncomputable def rval (i j : Nat) : ℝ :=
  Real.sqrt (linspaceElt size j ^ 2 + linspaceElt size i ^ 2)

/-- Line 43: `amplitude = 1.0 - (tension * 0.9)`. -/
noncomputable def amplitude (tension : ℝ) : ℝ :=
  1.0 - tension * 0.9

/-- `Z[i][j]` of line 49: `amplitude * np.cos(frequency * R * np.pi)`. -/
noncomputable def zval (tension frequency : ℝ) (i j : Nat) : ℝ :=
  amplitude tension * Real.cos (frequency * rval i j * Real.pi)

/-- The JSON response body returned by `get_field` (lines 53 to 58). -/
structure FieldResponse where
  z_values : List ℝ
  size : Nat
  tension : ℝ
  frequency : ℝ

/-- The handler body of `GET /api/field` (lines 20 to 58).  `Z.flatten().tolist()`
is the row-major flattening of the 50x50 array `Z`: all columns of row 0, then
row 1, and so on, modelled as a `flatMap` over the row index `i`. -/
noncomputable def get_field (tension frequency : ℝ) : FieldResponse :=
  { z_values := (List.range size).flatMap fun i =>
      (List.range size).map fun j => zval tension frequency i j,
    size := size,
    tension := tension,
    frequency := frequency }

/-- Outcome of a request to `/api/field`: either the 200 response produced by
`get_field`, or the 422 validation error produced by the framework. -/
inductive FieldResult where
  | ok (r : FieldResponse) : FieldResult
  | validationError : FieldResult

/-- Modelled from the spec: the FastAPI request-validation layer for the two
required float query parameters of `/api/field` (framework code, not in src/).
A parameter is `some v` when it is present and parses as a float, and `none`
when it is missing or non-numeric; the framework answers with a 422 validation
error before `get_field` runs unless both parameters parse (spec section 6:
"Missing or non-numeric values -> request validation failure (standard
422-equivalent)"). -/
noncomputable def handle_field (tq fq : Option ℝ) : FieldResult :=
  match tq, fq with
  | some t, some f => .ok (get_field t f)
  | _, _ => .validationError

/-- The `z_values` field of a response body, when one is present: the 422
validation error body carries no `z_values` field. -/
noncomputable def FieldResult.zValuesField : FieldResult → Option (List ℝ)
  | .ok r => some r.z_values
  | .validationError => none

/-! ### Helper lemmas about row-major flattening -/

theorem length_flatMap_map {α β γ : Type} (f : α → β → γ) (l1 : List α) (l2 : List β) :
    (l1.flatMap fun a => l2.map (f a)).length = l1.length * l2.length := by
  induction l1 with
  | nil => simp
  | cons a t ih =>
    simp only [List.flatMap_cons, List.length_append, List.length_map, ih, List.length_cons]
    ring

theorem getElem?_flatMap_map {α β γ : Type} (f : α → β → γ) (l1 : List α) (l2 : List β)
    (i j : Nat) (hi : i < l1.length) (hj : j < l2.length) :
    (l1.flatMap fun a => l2.map (f a))[i * l2.length + j]? = some (f l1[i] l2[j]) := by
  induction l1 generalizing i with
  | nil => simp at hi
  | cons a t ih =>
    cases i with
    | zero =>
      rw [List.flatMap_cons, Nat.zero_mul, Nat.zero_add,
        List.getElem?_append_left (by simpa using hj), List.getElem?_map,
        List.getElem?_eq_getElem hj]
      simp
    | succ i2 =>
      rw [List.flatMap_cons,
        List.getElem?_append_right (by rw [List.length_map, Nat.succ_mul]; omega),
        show (i2 + 1) * l2.length + j - (l2.map (f a)).length = i2 * l2.length + j by
          rw [List.length_map, Nat.succ_mul]; omega]
      have hi2 : i2 < t.length := by simpa using hi
      rw [ih i2 hi2]
      simp

theorem get_field_z_index (t f : ℝ) (i j : Nat) (hi : i < 50) (hj : j < 50) :
    (get_field t f).z_values[i * 50 + j]? = some (zval t f i j) := by
  have h := getElem?_flatMap_map (fun a b => zval t f a b)
    (List.range size) (List.range size) i j
    (by simpa [size] using hi) (by simpa [size] using hj)
  simpa [get_field, size, List.getElem_range] using h

/-! ### Helper lemmas about the field formula -/

theorem abs_cos_sub_one_le (θ : ℝ) : |Real.cos θ - 1| ≤ θ ^ 2 / 2 := by
  rw [abs_sub_comm, abs_of_nonneg (by linarith [Real.cos_le_one θ])]
  linarith [Real.one_sub_sq_div_two_le_cos (x := θ)]

theorem center_rval (i j : Nat) (hi : i = 24 ∨ i = 25) (hj : j = 24 ∨ j = 25) :
    rval i j = Real.sqrt 2 / 49 := by
  have hsq : ∀ k : Nat, k = 24 ∨ k = 25 → linspaceElt size k ^ 2 = 1 / 2401 := by
    rintro k (rfl | rfl) <;> norm_num [linspaceElt, size]
  rw [rval, hsq i hi, hsq j hj,
    show (1 : ℝ) / 2401 + 1 / 2401 = 2 / 49 ^ 2 by norm_num,
    Real.sqrt_div (by norm_num), Real.sqrt_sq (by norm_num)]

/-! ### Claim theorems -/

/-- C1: for every pair of real inputs (tension, frequency) and all `i, j` in
`[0, 49]`, `z_values[i*50 + j] = (1.0 - tension*0.9) * cos(frequency *
sqrt(x[j]^2 + y[i]^2) * pi)` with `x[k] = y[k] = -1 + 2*k/49`: the output is
the row-major flattening of the grid of the spec, algorithm steps 1 to 6. -/
theorem getField_z_formula (t f : ℝ) (i j : Nat) (hi : i ≤ 49) (hj : j ≤ 49) :
    (get_field t f).z_values[i * 50 + j]? =
      some ((1.0 - t * 0.9) *
        Real.cos (f * Real.sqrt ((-1 + 2 * (j : ℝ) / 49) ^ 2 +
          (-1 + 2 * (i : ℝ) / 49) ^ 2) * Real.pi)) := by
  rw [get_field_z_index t f i j (by omega) (by omega)]
  norm_num [zval, amplitude, rval, linspaceElt, size]

theorem getField_z_formula_witness :
    (get_field (0 : ℝ) 0).z_values[(0 : Nat) * 50 + 0]? =
      some ((1.0 - (0 : ℝ) * 0.9) *
        Real.cos ((0 : ℝ) * Real.sqrt ((-1 + 2 * ((0 : Nat) : ℝ) / 49) ^ 2 +
          (-1 + 2 * ((0 : Nat) : ℝ) / 49) ^ 2) * Real.pi)) :=
  getField_z_formula 0 0 0 0 (by norm_num) (by norm_num)

/-- C2: for every pair of real inputs accepted by `get_field`, the response
has `size = 50` and `z_values` has exactly 2500 elements. -/
theorem getField_size_and_length (t f : ℝ) :
    (get_field t f).size = 50 ∧ (get_field t f).z_values.length = 2500 := by
  refine ⟨rfl, ?_⟩
  have h := length_flatMap_map (fun a b => zval t f a b)
    (List.range size) (List.range size)
  simpa [get_field, size] using h

/-- C3: a request with a missing or non-numeric `tension` or `frequency`
parameter yields the 422-equivalent validation error, whose body carries no
`z_values` field, and this is the only error class: with both parameters
present and numeric the handler always answers `ok` with `get_field`. -/
theorem handleField_validation (tq fq : Option ℝ) :
    ((handle_field tq fq).zValuesField = none ↔ tq = none ∨ fq = none) ∧
    (∀ t f : ℝ, handle_field (some t) (some f) = .ok (get_field t f)) := by
  refine ⟨?_, fun t f => rfl⟩
  cases tq <;> cases fq <;> simp [handle_field, FieldResult.zValuesField]

/-- C4: `get_field` is deterministic and side-effect free: it is a pure
function of its two arguments, so two calls with identical inputs return
identical full responses (hence identical `z_values`). -/
theorem getField_deterministic (t f t2 f2 : ℝ) (ht : t = t2) (hf : f = f2) :
    get_field t f = get_field t2 f2 := by
  rw [ht, hf]

theorem getField_deterministic_witness :
    get_field (0.5 : ℝ) 2 = get_field 0.5 2 :=
  getField_deterministic 0.5 2 0.5 2 rfl rfl

/-- C5: for every tension and frequency, each center cell (`i` and `j` each
24 or 25, the cells nearest to the origin) has `R = sqrt 2 / 49` (about 0.029,
so `R ≈ 0`) and its `Z` value is within `|amplitude| * (frequency*pi)^2/2401`
of `amplitude = 1.0 - tension*0.9`, a bound quadratically small in the cell
offset and independent of frequency in its target value. -/
theorem center_cell_value (t f : ℝ) (i j : Nat)
    (hi : i = 24 ∨ i = 25) (hj : j = 24 ∨ j = 25) :
    rval i j = Real.sqrt 2 / 49 ∧
    |zval t f i j - amplitude t| ≤ |amplitude t| * ((f * Real.pi) ^ 2 / 2401) := by
  have hr := center_rval i j hi hj
  refine ⟨hr, ?_⟩
  rw [zval, hr,
    show amplitude t * Real.cos (f * (Real.sqrt 2 / 49) * Real.pi) - amplitude t =
      amplitude t * (Real.cos (f * (Real.sqrt 2 / 49) * Real.pi) - 1) by ring,
    abs_mul]
  have hb := abs_cos_sub_one_le (f * (Real.sqrt 2 / 49) * Real.pi)
  have hsq : (f * (Real.sqrt 2 / 49) * Real.pi) ^ 2 / 2 = (f * Real.pi) ^ 2 / 2401 := by
    rw [mul_pow, mul_pow, div_pow, Real.sq_sqrt (by norm_num : (0 : ℝ) ≤ 2), mul_pow]
    ring
  calc |amplitude t| * |Real.cos (f * (Real.sqrt 2 / 49) * Real.pi) - 1|
      ≤ |amplitude t| * ((f * (Real.sqrt 2 / 49) * Real.pi) ^ 2 / 2) :=
        mul_le_mul_of_nonneg_left hb (abs_nonneg _)
    _ = |amplitude t| * ((f * Real.pi) ^ 2 / 2401) := by rw [hsq]

theorem center_cell_value_witness :
    rval 24 24 = Real.sqrt 2 / 49 ∧
    |zval 0 0 24 24 - amplitude 0| ≤
      |amplitude 0| * (((0 : ℝ) * Real.pi) ^ 2 / 2401) :=
  center_cell_value 0 0 24 24 (Or.inl rfl) (Or.inl rfl)

/-- C6: the amplitude `1.0 - tension*0.9` equals 1.0 at `tension = 0.0` and
0.1 at `tension = 1.0` (exact in the real-arithmetic semantics of the
formula). -/
theorem amplitude_boundary : amplitude 0 = 1.0 ∧ amplitude 1 = 0.1 := by
  constructor <;> norm_num [amplitude]

/-- C7: with `tension = 1.0, frequency = 0.0` every one of the 2500 returned
`z_values` equals 0.1 (since `cos 0 = 1` at every cell); with
`tension = 0.0, frequency = 1.0` the center value is within 1/100 of 1.0. -/
theorem scenario_values :
    (∀ k : Nat, k < 2500 → (get_field 1 0).z_values[k]? = some 0.1) ∧
    ((get_field 0 1).z_values[24 * 50 + 24]? = some (zval 0 1 24 24) ∧
      |zval 0 1 24 24 - 1| ≤ 1 / 100) := by
  refine ⟨?_, get_field_z_index 0 1 24 24 (by norm_num) (by norm_num), ?_⟩
  · intro k hk
    have h := get_field_z_index 1 0 (k / 50) (k % 50) (by omega) (by omega)
    rw [show k / 50 * 50 + k % 50 = k by omega] at h
    rw [h]
    norm_num [zval, amplitude, Real.cos_zero]
  · have hr : rval 24 24 = Real.sqrt 2 / 49 :=
      center_rval 24 24 (Or.inl rfl) (Or.inl rfl)
    have hz : zval 0 1 24 24 = Real.cos (Real.sqrt 2 / 49 * Real.pi) := by
      rw [zval, hr, amplitude]
      norm_num
    rw [hz]
    have hb := abs_cos_sub_one_le (Real.sqrt 2 / 49 * Real.pi)
    have hsq : (Real.sqrt 2 / 49 * Real.pi) ^ 2 / 2 = Real.pi ^ 2 / 2401 := by
      rw [mul_pow, div_pow, Real.sq_sqrt (by norm_num : (0 : ℝ) ≤ 2)]
      ring
    rw [hsq] at hb
    have hpi : Real.pi ^ 2 / 2401 ≤ 1 / 100 := by
      nlinarith [Real.pi_le_four, Real.pi_pos]
    linarith

theorem scenario_values_witness :
    (get_field 1 0).z_values[(0 : Nat)]? = some 0.1 :=
  scenario_values.1 0 (by norm_num)

/-- C8: the response echoes the inputs unchanged: its `tension` field equals
the input tension and its `frequency` field equals the input frequency. -/
theorem getField_echoes (t f : ℝ) :
    (get_field t f).tension = t ∧ (get_field t f).frequency = f :=
  ⟨rfl, rfl⟩

/-- C9: every returned `z_values` element `v` satisfies
`|v| ≤ |1.0 - tension*0.9|`; in particular for tension in `[0, 1]` every
returned value lies in `[-1, 1]`. -/
theorem z_values_bounded (t f v : ℝ) (hv : v ∈ (get_field t f).z_values) :
    |v| ≤ |1.0 - t * 0.9| ∧ (0 ≤ t → t ≤ 1 → -1 ≤ v ∧ v ≤ 1) := by
  simp only [get_field, List.mem_flatMap, List.mem_map, List.mem_range] at hv
  obtain ⟨i, hi, j, hj, rfl⟩ := hv
  have h1 : |zval t f i j| ≤ |amplitude t| := by
    rw [zval, abs_mul]
    calc |amplitude t| * |Real.cos (f * rval i j * Real.pi)|
        ≤ |amplitude t| * 1 :=
          mul_le_mul_of_nonneg_left (Real.abs_cos_le_one _) (abs_nonneg _)
      _ = |amplitude t| := mul_one _
  have hamp : |amplitude t| = |1.0 - t * 0.9| := by rw [amplitude]
  refine ⟨hamp ▸ h1, fun h0 hle => ?_⟩
  have hA : |amplitude t| ≤ 1 := by
    rw [amplitude, abs_le]
    constructor <;> nlinarith
  exact abs_le.mp (h1.trans hA)

theorem z_values_bounded_witness :
    |(1 : ℝ)| ≤ |1.0 - (0 : ℝ) * 0.9| ∧
    ((0 : ℝ) ≤ 0 → (0 : ℝ) ≤ 1 → -1 ≤ (1 : ℝ) ∧ (1 : ℝ) ≤ 1) :=
  z_values_bounded 0 0 1 (by
    simp only [get_field, List.mem_flatMap, List.mem_map, List.mem_range]
    exact ⟨0, by norm_num [size], 0, by norm_num [size],
      by norm_num [zval, amplitude, Real.cos_zero]⟩)

/-- C10: the field is an even function of frequency: for every tension and
frequency, `(tension, -frequency)` and `(tension, frequency)` give identical
`z_values`, since frequency enters only through `cos(frequency * R * pi)`. -/
theorem getField_even_in_frequency (t f : ℝ) :
    (get_field t (-f)).z_values = (get_field t f).z_values := by
  have hz : ∀ i j : Nat, zval t (-f) i j = zval t f i j := by
    intro i j
    rw [zval, zval,
      show -f * rval i j * Real.pi = -(f * rval i j * Real.pi) by ring,
      Real.cos_neg]
  simp only [get_field, hz]

end ToneField
